import Mathlib

/-!
Verification of the favorites persistence and media-acquisition layer of the
gifpicker application (src-tauri).  The Rust source is shallowly embedded:

* `src/models/favorite.rs`  → `MediaType`, `Source`, `Favorite`, `Favorite.new`
  and the fluent helpers;
* `src/db/favorites.rs`     → `FavoriteRow`, `DbState` (the `favorites` table of
  the SQLite file plus the rowid counter), `FavoritesDb.create`, `getById`,
  `getAll`, `search`, `update`, `incrementUseCount`, and the
  `From<FavoriteRow> for Favorite` decoding (`rowToFavorite`);
* `src/db/connection.rs`    → `MigDb`, `runMigrations`;
* `src/services/downloader.rs` → `DlState`, `Downloader.download`.

External library behaviour is modelled explicitly:

* `serde_json` serialization of `Vec<String>` is modelled by a real JSON
  string-array encoder (`encodeStringList`) and recursive-descent parser
  (`parseStringList`): the encoder emits exactly the shape serde_json emits
  (`[]`, `["a","b"]`, escaping `"` and `\`), the parser accepts exactly that
  grammar and fails (`none`) on anything else.  Control characters are carried
  verbatim rather than escaped; this does not affect the round-trip property
  the code relies on.
* `chrono`'s `to_rfc3339` / `DateTime::parse_from_rfc3339` are modelled by a
  fixed-width decimal timestamp codec (`toRfc3339` / `parseRfc3339`) over
  `Nat` instants.  The properties preserved are exactly the ones the program
  uses: the encoding is injective, the parser is its exact inverse and rejects
  malformed text, and — like RFC 3339 text for UTC instants — the byte-wise
  (memcmp, as SQLite compares TEXT) order of encoded values agrees with the
  chronological order.  RFC 3339 text is genuinely bounded (years up to 9999),
  which the width bound `timeBound` mirrors.
* SQLite's `LOWER` lowercases ASCII only; `str::to_lowercase` in Rust is
  Unicode-aware.  Both are modelled as ASCII lowercasing (`asciiLower`); they
  agree on ASCII, and every concrete instance below is ASCII.
* SQLite's `LIKE` (no ESCAPE clause) is modelled by `likeMatch` with the `%`
  and `_` wildcards.  Default LIKE is ASCII-case-insensitive; since the code
  lowercases both operands first, plain character comparison is equivalent.
-/

namespace GifPicker

/-! ### ASCII lowercasing (SQLite `LOWER`, and `to_lowercase` on ASCII) -/

/-- ASCII-lowercase a character (SQLite `LOWER` semantics). -/
def asciiLowerChar (c : Char) : Char :=
  if 65 ≤ c.toNat ∧ c.toNat ≤ 90 then Char.ofNat (c.toNat + 32) else c

/-- ASCII-lowercase a string. -/
def asciiLower (s : String) : String := ⟨s.data.map asciiLowerChar⟩

/-! ### Entity model: `src/models/favorite.rs` -/

/-- `MediaType` enum from `models/favorite.rs`. -/
inductive MediaType
  | gif
  | image
  | video
deriving DecidableEq

/-- `impl Display for MediaType` (`models/favorite.rs`). -/
def MediaType.str : MediaType → String
  | .gif => "gif"
  | .image => "image"
  | .video => "video"

/-- `impl FromStr for MediaType` (`models/favorite.rs`): lowercases, then
matches; unknown input is an `Err` naming the offending token. -/
def MediaType.parse (s : String) : Except String MediaType :=
  if asciiLower s = "gif" then .ok .gif
  else if asciiLower s = "image" then .ok .image
  else if asciiLower s = "video" then .ok .video
  else .error ("Unknown media type: " ++ s)

/-- `Source` enum from `models/favorite.rs`. -/
inductive Source
  | giphy
  | tenor
  | local
  | upload
deriving DecidableEq

/-- `impl Display for Source` (`models/favorite.rs`). -/
def Source.str : Source → String
  | .giphy => "giphy"
  | .tenor => "tenor"
  | .local => "local"
  | .upload => "upload"

/-- `impl FromStr for Source` (`models/favorite.rs`). -/
def Source.parse (s : String) : Except String Source :=
  if asciiLower s = "giphy" then .ok .giphy
  else if asciiLower s = "tenor" then .ok .tenor
  else if asciiLower s = "local" then .ok .local
  else if asciiLower s = "upload" then .ok .upload
  else .error ("Unknown source: " ++ s)

/-- The `Favorite` struct (`models/favorite.rs`).  `i64`/`i32` fields are
embedded as `Int` (SQLite stores 64-bit integers; no arithmetic here comes
near the boundary), `DateTime<Utc>` instants as `Nat`. -/
structure Favorite where
  id : Option Int
  filename : String
  filepath : Option String
  gif_url : Option String
  media_type : MediaType
  source : Option Source
  source_id : Option String
  source_url : Option String
  tags : List String
  custom_tags : List String
  description : Option String
  width : Option Int
  height : Option Int
  file_size : Option Int
  created_at : Nat
  last_used : Option Nat
  use_count : Int
deriving DecidableEq

/-- `Favorite::new` (`models/favorite.rs`); `Utc::now()` is the explicit
`now` argument. -/
def Favorite.new (filename : String) (filepath : Option String)
    (media_type : MediaType) (now : Nat) : Favorite where
  id := none
  filename := filename
  filepath := filepath
  gif_url := none
  media_type := media_type
  source := none
  source_id := none
  source_url := none
  tags := []
  custom_tags := []
  description := none
  width := none
  height := none
  file_size := none
  created_at := now
  last_used := none
  use_count := 0

/-- `Favorite::with_source` (`models/favorite.rs`). -/
def Favorite.withSource (f : Favorite) (source : Source)
    (source_id source_url : Option String) : Favorite :=
  { f with source := some source, source_id := source_id, source_url := source_url }

/-- `Favorite::with_gif_url` (`models/favorite.rs`). -/
def Favorite.withGifUrl (f : Favorite) (gif_url : String) : Favorite :=
  { f with gif_url := some gif_url }

/-- `Favorite::with_dimensions` (`models/favorite.rs`). -/
def Favorite.withDimensions (f : Favorite) (width height : Int) : Favorite :=
  { f with width := some width, height := some height }

/-- `Favorite::with_tags` (`models/favorite.rs`). -/
def Favorite.withTags (f : Favorite) (tags : List String) : Favorite :=
  { f with tags := tags }

/-! ### serde_json model: JSON encoding of `Vec<String>` -/

/-- JSON string escaping for one character (`"` and `\` get a backslash). -/
def escChar (c : Char) : List Char :=
  if c = '"' ∨ c = '\\' then ['\\', c] else [c]

/-- JSON encoding of one string, quotes included. -/
def encodeJsonString (s : String) : List Char :=
  '"' :: (s.data.flatMap escChar ++ ['"'])

/-- Comma-separated JSON encodings of the items of a list. -/
def encodeItems : List String → List Char
  | [] => []
  | [s] => encodeJsonString s
  | s :: rest => encodeJsonString s ++ ',' :: encodeItems rest

/-- `serde_json::to_string` on a `Vec<String>`: `[]`, or `["a","b"]`. -/
def encodeStringList (l : List String) : String :=
  ⟨'[' :: (encodeItems l ++ [']'])⟩

/-- Parse the body of a JSON string (after the opening quote); returns the
decoded characters and the rest of the input past the closing quote. -/
def parseJsonStringAux : List Char → Option (List Char × List Char)
  | [] => none
  | c :: rest =>
    if c = '"' then some ([], rest)
    else if c = '\\' then
      match rest with
      | [] => none
      | d :: rest2 =>
        if d = '"' ∨ d = '\\' then
          (parseJsonStringAux rest2).map (fun p => (d :: p.1, p.2))
        else none
    else (parseJsonStringAux rest).map (fun p => (c :: p.1, p.2))

/-- Parse one or more comma-separated JSON strings followed by `]`.  Fuel is
an upper bound on the number of items (the input length suffices). -/
def parseItems : Nat → List Char → Option (List String × List Char)
  | 0, _ => none
  | fuel + 1, cs =>
    match cs with
    | '"' :: cs1 =>
      match parseJsonStringAux cs1 with
      | none => none
      | some (s, rest) =>
        match rest with
        | ']' :: r => some ([⟨s⟩], r)
        | ',' :: r =>
          match parseItems fuel r with
          | some (l, r2) => some (⟨s⟩ :: l, r2)
          | none => none
        | _ => none
    | _ => none

/-- `serde_json::from_str::<Vec<String>>`: accepts exactly a JSON array of
strings (as emitted by `encodeStringList`), `none` on anything else. -/
def parseStringList (s : String) : Option (List String) :=
  match s.data with
  | '[' :: rest =>
    if rest = [']'] then some []
    else
      match parseItems rest.length rest with
      | some (l, []) => some l
      | _ => none
  | _ => none

/-! ### chrono model: fixed-width timestamp codec -/

/-- The decimal digit character for `d < 10` (`'0'` fallback above). -/
def dChar (d : Nat) : Char :=
  match d with
  | 0 => '0' | 1 => '1' | 2 => '2' | 3 => '3' | 4 => '4'
  | 5 => '5' | 6 => '6' | 7 => '7' | 8 => '8' | _ => '9'

/-- Numeric value of a digit character. -/
def dVal (c : Char) : Nat := c.toNat - 48

/-- Is `c` a decimal digit? -/
def isDigitC (c : Char) : Bool := 48 ≤ c.toNat && c.toNat ≤ 57

/-- Width of the timestamp encoding. -/
def timeWidth : Nat := 20

/-- Exclusive upper bound on encodable instants (capacity of the codec; RFC
3339 text is likewise bounded). -/
def timeBound : Nat := 10 ^ timeWidth

/-- Fixed-width big-endian decimal digits of `t` (`w` digits). -/
def encW : Nat → Nat → List Char
  | 0, _ => []
  | w + 1, t => dChar (t / 10 ^ w) :: encW w (t % 10 ^ w)

/-- Value of a big-endian digit string, with accumulator. -/
def digitsValAux (acc : Nat) : List Char → Nat
  | [] => acc
  | c :: rest => digitsValAux (10 * acc + dVal c) rest

/-- Model of `DateTime<Utc>::to_rfc3339`: the instant as 20 zero-padded
decimal digits.  Injective on `t < timeBound`, and byte-wise (memcmp) order
of encodings agrees with numeric order — the two properties of RFC 3339 text
the program relies on. -/
def toRfc3339 (t : Nat) : String := ⟨encW timeWidth t⟩

/-- Model of `DateTime::parse_from_rfc3339`: exact inverse of `toRfc3339`,
`none` on any string that is not a well-formed (20-digit) encoding. -/
def parseRfc3339 (s : String) : Option Nat :=
  if s.data.length = timeWidth ∧ s.data.all isDigitC then
    some (digitsValAux 0 s.data)
  else none

/-! ### SQL text comparison and LIKE matching -/

/-- Byte-wise (memcmp) `≤` on character lists: how SQLite compares TEXT
values, e.g. for `ORDER BY created_at`. -/
def lexLeB : List Char → List Char → Bool
  | [], _ => true
  | _ :: _, [] => false
  | a :: as, b :: bs =>
    if a.toNat < b.toNat then true
    else if b.toNat < a.toNat then false
    else lexLeB as bs

/-- SQLite `LIKE` (no ESCAPE clause): `%` matches any run — i.e. the rest of
the pattern matches some suffix — and `_` matches any single character.
Both operands are already lowercased by the query, so plain character
equality models the default ASCII-case-insensitive comparison. -/
def likeMatch : List Char → List Char → Bool
  | [], s => s.isEmpty
  | p :: ps, s =>
    if p = '%' then
      s.tails.any (fun t => likeMatch ps t)
    else
      match s with
      | [] => false
      | c :: s2 => (p = '_' ∨ p = c) && likeMatch ps s2

/-! ### Relational store: `src/db/favorites.rs` -/

/-- One row of the `favorites` table, exactly the `FavoriteRow` struct of
`db/favorites.rs` (columns as SQLite stores them: tags as JSON text,
timestamps as text). -/
structure FavoriteRow where
  id : Int
  filename : String
  filepath : Option String
  gif_url : Option String
  media_type : String
  source : Option String
  source_id : Option String
  source_url : Option String
  tags : String
  custom_tags : String
  description : Option String
  width : Option Int
  height : Option Int
  file_size : Option Int
  created_at : String
  last_used : Option String
  use_count : Int
deriving DecidableEq

/-- The `favorites` table plus SQLite's rowid allocator (`id INTEGER PRIMARY
KEY`: fresh rows get `nextId`, which starts at 1 and increases).  Row order
in the list is unobservable: every read either filters by the unique id or
sorts. -/
structure DbState where
  rows : List FavoriteRow
  nextId : Int
deriving DecidableEq

/-- The empty database (after migrations, before any insert). -/
def DbState.empty : DbState := ⟨[], 1⟩

/-- Well-formedness of a store state: the rowid allocator is positive and
ahead of every row, and ids are unique.  Every state reachable through the
API from `DbState.empty` satisfies this. -/
def DbState.WF (st : DbState) : Prop :=
  0 < st.nextId ∧ (∀ r ∈ st.rows, r.id < st.nextId) ∧
    st.rows.Pairwise (fun a b => a.id ≠ b.id)

/-- The row `FavoritesDb::create` inserts for `favorite` (the bound values of
the INSERT in `db/favorites.rs`), with rowid `i`. -/
def Favorite.toRow (f : Favorite) (i : Int) : FavoriteRow where
  id := i
  filename := f.filename
  filepath := f.filepath
  gif_url := f.gif_url
  media_type := f.media_type.str
  source := f.source.map Source.str
  source_id := f.source_id
  source_url := f.source_url
  tags := encodeStringList f.tags
  custom_tags := encodeStringList f.custom_tags
  description := f.description
  width := f.width
  height := f.height
  file_size := f.file_size
  created_at := toRfc3339 f.created_at
  last_used := f.last_used.map toRfc3339
  use_count := f.use_count

/-- `FavoritesDb::create` (`db/favorites.rs`): serializes and inserts, and
returns `last_insert_rowid()`.  Serialization of `Vec<String>` cannot fail
and the INSERT violates no constraint, so the `Result` is always `Ok`. -/
def FavoritesDb.create (f : Favorite) (st : DbState) : Int × DbState :=
  (st.nextId, ⟨f.toRow st.nextId :: st.rows, st.nextId + 1⟩)

/-- `From<FavoriteRow> for Favorite` (`db/favorites.rs`): total decoding with
defaults — malformed tag JSON → `[]`, unknown media type → `Gif`, unknown
source → `None`, unparseable `created_at` → `Utc::now()` (the `now`
argument), unparseable `last_used` → `None`. -/
def rowToFavorite (now : Nat) (row : FavoriteRow) : Favorite where
  id := some row.id
  filename := row.filename
  filepath := row.filepath
  gif_url := row.gif_url
  media_type := (MediaType.parse row.media_type).toOption.getD .gif
  source := row.source.bind (fun s => (Source.parse s).toOption)
  source_id := row.source_id
  source_url := row.source_url
  tags := (parseStringList row.tags).getD []
  custom_tags := (parseStringList row.custom_tags).getD []
  description := row.description
  width := row.width
  height := row.height
  file_size := row.file_size
  created_at := (parseRfc3339 row.created_at).getD now
  last_used := row.last_used.bind parseRfc3339
  use_count := row.use_count

/-- `FavoritesDb::get_by_id` (`db/favorites.rs`): `WHERE id = ?`, decoded. -/
def FavoritesDb.getById (i : Int) (st : DbState) (now : Nat) : Option Favorite :=
  (st.rows.find? (fun r => r.id == i)).map (rowToFavorite now)

/-- Does `row` satisfy the WHERE clause of `FavoritesDb::search` for the
(already lowercased) pattern `pat`?  A NULL `description` fails its LIKE
(NULL comparisons are not true in SQL). -/
def rowLikeMatch (pat : List Char) (row : FavoriteRow) : Bool :=
  likeMatch pat (asciiLower row.filename).data ||
  likeMatch pat (asciiLower row.tags).data ||
  likeMatch pat (asciiLower row.custom_tags).data ||
  (match row.description with
    | none => false
    | some d => likeMatch pat (asciiLower d).data)

/-- The `ORDER BY use_count DESC, created_at DESC` comparison of
`FavoritesDb::search`: `a` may precede `b`.  `created_at` is TEXT, compared
byte-wise by SQLite. -/
def searchOrd (a b : FavoriteRow) : Prop :=
  b.use_count < a.use_count ∨
    (a.use_count = b.use_count ∧ lexLeB b.created_at.data a.created_at.data = true)

instance : DecidableRel searchOrd := fun _ _ => by
  unfold searchOrd; infer_instance

/-- `FavoritesDb::search` (`db/favorites.rs`): builds `%<lowercased
query>%`, keeps the rows whose lowercased filename, tags, custom_tags or
description LIKE-match it, orders by use count then creation time descending,
and decodes. -/
def FavoritesDb.search (query : String) (st : DbState) (now : Nat) : List Favorite :=
  let pat : List Char := '%' :: ((asciiLower query).data ++ ['%'])
  ((st.rows.filter (rowLikeMatch pat)).insertionSort searchOrd).map (rowToFavorite now)

/-- The `ORDER BY created_at DESC` comparison of `FavoritesDb::get_all`. -/
def createdOrd (a b : FavoriteRow) : Prop :=
  lexLeB b.created_at.data a.created_at.data = true

instance : DecidableRel createdOrd := fun _ _ => by
  unfold createdOrd; infer_instance

/-- `FavoritesDb::get_all` (`db/favorites.rs`). -/
def FavoritesDb.getAll (st : DbState) (now : Nat) : List Favorite :=
  (st.rows.insertionSort createdOrd).map (rowToFavorite now)

/-- The SET clause of `FavoritesDb::update` applied to stored row `r`:
every bound column is replaced from `f`; `id` and `created_at` are not in the
SET list and keep their stored values. -/
def updateRow (f : Favorite) (r : FavoriteRow) : FavoriteRow :=
  { r with
    filename := f.filename
    filepath := f.filepath
    gif_url := f.gif_url
    media_type := f.media_type.str
    source := f.source.map Source.str
    source_id := f.source_id
    source_url := f.source_url
    tags := encodeStringList f.tags
    custom_tags := encodeStringList f.custom_tags
    description := f.description
    width := f.width
    height := f.height
    file_size := f.file_size
    last_used := f.last_used.map toRfc3339
    use_count := f.use_count }

/-- `FavoritesDb::update` (`db/favorites.rs`): `favorite.id.context("Favorite
must have an ID to update")?`, then `UPDATE ... WHERE id = ?` (touching zero
rows is still a success). -/
def FavoritesDb.update (f : Favorite) (st : DbState) : Except String DbState :=
  match f.id with
  | none => .error "Favorite must have an ID to update"
  | some i =>
    .ok ⟨st.rows.map (fun r => if r.id = i then updateRow f r else r), st.nextId⟩

/-- The state transition of `FavoritesDb::increment_use_count`: one UPDATE
statement bumps the counter and stamps `last_used` with `Utc::now()` (the
`now` argument) on the matching row — a single atomic operation. -/
def incrementPure (i : Int) (now : Nat) (st : DbState) : DbState :=
  ⟨st.rows.map (fun r =>
      if r.id = i then
        { r with use_count := r.use_count + 1, last_used := some (toRfc3339 now) }
      else r),
    st.nextId⟩

/-- `FavoritesDb::increment_use_count` (`db/favorites.rs`): the UPDATE
succeeds whether or not any row matches — a missing id is not an error. -/
def FavoritesDb.incrementUseCount (i : Int) (now : Nat) (st : DbState) :
    Except String DbState :=
  .ok (incrementPure i now st)

/-- `increment_use_count` applied sequentially at the instants `ts`
(left-to-right). -/
def iterIncrement (i : Int) (ts : List Nat) (st : DbState) : DbState :=
  ts.foldl (fun s t => incrementPure i t s) st

/-! ### Media acquisition: `src/services/downloader.rs` -/

/-- Downloader-visible world state: the set of existing file paths and a
count of the HTTP GET requests issued so far.  `ensure_directories` creates
directories, not files, so it does not touch `fs`. -/
structure DlState where
  fs : List String
  netCount : Nat
deriving DecidableEq

/-- The media-type → subdirectory mapping of `Downloader::download`
(unknown types default to `gifs`). -/
def subdirFor (media_type : String) : String :=
  if media_type = "gif" then "gifs"
  else if media_type = "image" then "images"
  else if media_type = "video" then "videos"
  else "gifs"

/-- `Downloader::download` (`services/downloader.rs`).  `net` is the HTTP
transport: `some body` for a success-status response, `none` for a
connection failure or non-success status (both are hard errors).  If the
destination path already exists the file is returned immediately, with no
request.  Otherwise one GET is issued; on success the body is written and the
path recorded.  (On error the returned state still counts the request.) -/
def Downloader.download (net : String → Option String) (mediaDir : String)
    (url filename media_type : String) (st : DlState) :
    Except String (String × DlState) :=
  let path := mediaDir ++ "/" ++ subdirFor media_type ++ "/" ++ filename
  if path ∈ st.fs then .ok (path, st)
  else
    match net url with
    | none => .error "Failed to download file"
    | some _ => .ok (path, ⟨path :: st.fs, st.netCount + 1⟩)

/-! ### Migrations: `src/db/connection.rs` -/

/-- Modelled from the spec: the contents of `migrations/001_initial.sql`
(creates the `favorites` and `settings` tables); the file itself is included
via `include_str!` and is not under `src/`.  The migration logic depends
only on its identity, so it is an opaque statement token. -/
def mig001sql : String := "001_initial.sql"

/-- Modelled from the spec: the contents of `migrations/002_add_gif_url.sql`
(adds the `gif_url` column); not under `src/`. -/
def mig002sql : String := "002_add_gif_url.sql"

/-- Modelled from the spec: the contents of
`migrations/003_add_clipboard_mode.sql` (adds the clipboard-mode setting);
not under `src/`. -/
def mig003sql : String := "003_add_clipboard_mode.sql"

/-- The migration sequence of `Database::run_migrations`
(`db/connection.rs`): ordered `(version, name, statement)` tuples. -/
def migrations : List (Int × String × String) :=
  [(1, "001_initial", mig001sql),
   (2, "002_add_gif_url", mig002sql),
   (3, "003_add_clipboard_mode", mig003sql)]

/-- Migration-relevant database state: the `_migrations` log table (rows
`(version, name)`) and the ordered log of schema statements that have been
executed against the file. -/
structure MigDb where
  migLog : List (Int × String)
  schemaLog : List String
deriving DecidableEq

/-- A fresh database file (no tables yet). -/
def MigDb.fresh : MigDb := ⟨[], []⟩

/-- One iteration of the migration loop: `SELECT version FROM _migrations
WHERE version = ?`; if absent, execute the statement and insert the log
row. -/
def applyMigration (st : MigDb) (m : Int × String × String) : MigDb :=
  if (st.migLog.find? (fun p => p.1 == m.1)).isSome then st
  else ⟨st.migLog ++ [(m.1, m.2.1)], st.schemaLog ++ [m.2.2]⟩

/-- `Database::run_migrations` (`db/connection.rs`): `CREATE TABLE IF NOT
EXISTS _migrations` (a no-op on the state modelled here), then the loop over
`migrations` in ascending version order. -/
def runMigrations (st : MigDb) : MigDb :=
  migrations.foldl applyMigration st

/-! ### Helper lemmas: enum codecs -/

theorem mediaType_parse_str (mt : MediaType) : MediaType.parse mt.str = .ok mt := by
  cases mt <;> rfl

theorem source_parse_str (s : Source) : Source.parse s.str = .ok s := by
  cases s <;> rfl

/-- Structure eta for strings, as a rewrite rule. -/
theorem String.mk_data (s : String) : (⟨s.data⟩ : String) = s := rfl

/-! ### Helper lemmas: JSON round-trip -/

theorem encodeItems_single (x : String) : encodeItems [x] = encodeJsonString x := rfl

theorem encodeItems_cons_cons (x y : String) (tl : List String) :
    encodeItems (x :: y :: tl) = encodeJsonString x ++ ',' :: encodeItems (y :: tl) := rfl

theorem parseJsonStringAux_enc (s : List Char) (rest : List Char) :
    parseJsonStringAux (s.flatMap escChar ++ '"' :: rest) = some (s, rest) := by
  induction s with
  | nil => rw [parseJsonStringAux.eq_def]; simp
  | cons c cs ih =>
    by_cases hc : c = '"' ∨ c = '\\'
    · simp only [List.flatMap_cons, escChar, if_pos hc, List.cons_append, List.append_assoc]
      rw [parseJsonStringAux.eq_def]
      simp [hc, ih]
    · simp only [List.flatMap_cons, escChar, if_neg hc, List.cons_append, List.append_assoc]
      push_neg at hc
      rw [parseJsonStringAux.eq_def]
      simp [hc.1, hc.2, ih]

theorem length_le_encodeItems (l : List String) : l.length ≤ (encodeItems l).length := by
  induction l with
  | nil => simp [encodeItems]
  | cons x tl ih =>
    cases tl with
    | nil => simp [encodeItems_single, encodeJsonString]
    | cons y tl' =>
      have h1 : 1 ≤ (encodeJsonString x).length := by simp [encodeJsonString]
      rw [encodeItems_cons_cons]
      simp only [List.length_append, List.length_cons] at ih ⊢
      omega

theorem parseItems_enc (l : List String) (rest : List Char) (fuel : Nat)
    (hne : l ≠ []) (hfuel : l.length ≤ fuel) :
    parseItems fuel (encodeItems l ++ ']' :: rest) = some (l, rest) := by
  induction l generalizing rest fuel with
  | nil => exact absurd rfl hne
  | cons x tl ih =>
    obtain ⟨f, rfl⟩ : ∃ f, fuel = f + 1 := by
      cases fuel with
      | zero => simp at hfuel
      | succ f => exact ⟨f, rfl⟩
    cases tl with
    | nil =>
      simp only [encodeItems_single, encodeJsonString, List.cons_append, List.append_assoc]
      rw [parseItems.eq_def]
      simp [parseJsonStringAux_enc, String.mk_data]
    | cons y tl' =>
      simp only [encodeItems_cons_cons, encodeJsonString, List.cons_append, List.append_assoc]
      have hlen : (y :: tl').length ≤ f := by
        simp only [List.length_cons] at hfuel ⊢; omega
      rw [parseItems.eq_def]
      simp only [List.nil_append]
      rw [parseJsonStringAux_enc]
      simp only [List.cons_append] at ih ⊢
      simp [ih rest f (List.cons_ne_nil y tl') hlen, String.mk_data]

theorem json_roundtrip (l : List String) :
    parseStringList (encodeStringList l) = some l := by
  cases l with
  | nil => decide
  | cons x tl =>
    obtain ⟨t, ht⟩ : ∃ t, encodeItems (x :: tl) = '"' :: t := by
      cases tl <;> exact ⟨_, rfl⟩
    have hlen : (encodeItems (x :: tl)).length = t.length + 1 := by rw [ht]; rfl
    have key : ∀ fuel, (x :: tl).length ≤ fuel →
        parseItems fuel ('"' :: (t ++ ']' :: [])) = some (x :: tl, []) := by
      intro fuel hf
      have h := parseItems_enc (x :: tl) [] fuel (List.cons_ne_nil x tl) hf
      rw [ht] at h
      simpa using h
    have hbound : (x :: tl).length ≤ ('"' :: (t ++ ']' :: ([] : List Char))).length := by
      have h := length_le_encodeItems (x :: tl)
      rw [hlen] at h
      simp only [List.length_cons, List.length_append, List.length_nil] at h ⊢
      omega
    simp only [encodeStringList, parseStringList, ht, List.cons_append, String.mk_data]
    rw [if_neg (by simp), key _ hbound]

/-! ### Helper lemmas: timestamp codec -/

theorem dVal_dChar {d : Nat} (h : d < 10) : dVal (dChar d) = d := by
  interval_cases d <;> decide

theorem isDigitC_dChar {d : Nat} (h : d < 10) : isDigitC (dChar d) = true := by
  interval_cases d <;> decide

theorem dChar_toNat {d : Nat} (h : d < 10) : (dChar d).toNat = 48 + d := by
  interval_cases d <;> decide

theorem encW_zero (t : Nat) : encW 0 t = [] := rfl

theorem encW_succ (w t : Nat) :
    encW (w + 1) t = dChar (t / 10 ^ w) :: encW w (t % 10 ^ w) := rfl

theorem digitsValAux_nil (acc : Nat) : digitsValAux acc [] = acc := rfl

theorem digitsValAux_cons (acc : Nat) (c : Char) (rest : List Char) :
    digitsValAux acc (c :: rest) = digitsValAux (10 * acc + dVal c) rest := rfl

theorem encW_length (w t : Nat) : (encW w t).length = w := by
  induction w generalizing t with
  | zero => rfl
  | succ w ih => rw [encW_succ, List.length_cons, ih]

theorem div_lt_ten {w t : Nat} (h : t < 10 ^ (w + 1)) : t / 10 ^ w < 10 := by
  rw [Nat.div_lt_iff_lt_mul (Nat.pos_pow_of_pos w (by omega))]
  calc t < 10 ^ (w + 1) := h
    _ = 10 * 10 ^ w := by ring

theorem encW_all_digits (w t : Nat) (h : t < 10 ^ w) :
    (encW w t).all isDigitC = true := by
  induction w generalizing t with
  | zero => rfl
  | succ w ih =>
    rw [encW_succ, List.all_cons, Bool.and_eq_true]
    exact ⟨isDigitC_dChar (div_lt_ten h), ih _ (Nat.mod_lt _ (Nat.pos_pow_of_pos w (by omega)))⟩

theorem digitsValAux_encW (w t acc : Nat) (h : t < 10 ^ w) :
    digitsValAux acc (encW w t) = acc * 10 ^ w + t := by
  induction w generalizing t acc with
  | zero =>
    have ht : t = 0 := by simpa using h
    subst ht
    rw [encW_zero, digitsValAux_nil]
    omega
  | succ w ih =>
    have hq : t / 10 ^ w < 10 := div_lt_ten h
    have hr : t % 10 ^ w < 10 ^ w := Nat.mod_lt _ (Nat.pos_pow_of_pos w (by omega))
    rw [encW_succ, digitsValAux_cons, ih _ _ hr, dVal_dChar hq]
    have hdm := Nat.div_add_mod t (10 ^ w)
    calc (10 * acc + t / 10 ^ w) * 10 ^ w + t % 10 ^ w
        = acc * (10 ^ w * 10) + (10 ^ w * (t / 10 ^ w) + t % 10 ^ w) := by ring
      _ = acc * 10 ^ (w + 1) + t := by rw [hdm]; ring

theorem time_roundtrip {t : Nat} (h : t < timeBound) :
    parseRfc3339 (toRfc3339 t) = some t := by
  have hlen : (encW timeWidth t).length = timeWidth := encW_length _ _
  have hdig : (encW timeWidth t).all isDigitC = true := encW_all_digits _ _ h
  have hval : digitsValAux 0 (encW timeWidth t) = t := by
    have := digitsValAux_encW timeWidth t 0 h
    simpa using this
  simp [parseRfc3339, toRfc3339, hlen, hdig, hval]

theorem encW_lexLeB_false (w : Nat) :
    ∀ t1 t2, t1 < t2 → t2 < 10 ^ w → lexLeB (encW w t2) (encW w t1) = false := by
  induction w with
  | zero => intro t1 t2 h1 h2; omega
  | succ w ih =>
    intro t1 t2 h1 h2
    have ht1 : t1 < 10 ^ (w + 1) := by omega
    have hq1 : t1 / 10 ^ w < 10 := div_lt_ten ht1
    have hq2 : t2 / 10 ^ w < 10 := div_lt_ten h2
    have hqle : t1 / 10 ^ w ≤ t2 / 10 ^ w := Nat.div_le_div_right (by omega)
    rw [encW_succ, encW_succ]
    show (if (dChar (t2 / 10 ^ w)).toNat < (dChar (t1 / 10 ^ w)).toNat then true
      else if (dChar (t1 / 10 ^ w)).toNat < (dChar (t2 / 10 ^ w)).toNat then false
      else lexLeB (encW w (t2 % 10 ^ w)) (encW w (t1 % 10 ^ w))) = false
    rcases Nat.lt_or_ge (t1 / 10 ^ w) (t2 / 10 ^ w) with hq | hq
    · rw [if_neg (by rw [dChar_toNat hq2, dChar_toNat hq1]; omega),
        if_pos (by rw [dChar_toNat hq2, dChar_toNat hq1]; omega)]
    · have hqeq : t1 / 10 ^ w = t2 / 10 ^ w := by omega
      rw [if_neg (by rw [dChar_toNat hq2, dChar_toNat hq1]; omega),
        if_neg (by rw [dChar_toNat hq2, dChar_toNat hq1]; omega)]
      have hd1 := Nat.div_add_mod t1 (10 ^ w)
      have hd2 := Nat.div_add_mod t2 (10 ^ w)
      rw [hqeq] at hd1
      have hr2 : t2 % 10 ^ w < 10 ^ w := Nat.mod_lt _ (Nat.pos_pow_of_pos w (by omega))
      exact ih _ _ (by omega) hr2

/-- Byte-wise order of encoded timestamps implies numeric order (how SQLite's
`ORDER BY created_at` relates to chronological order for RFC 3339 text). -/
theorem le_of_lexLeB_encW {t1 t2 : Nat} (h1 : t1 < timeBound) (_h2 : t2 < timeBound)
    (h : lexLeB (encW timeWidth t1) (encW timeWidth t2) = true) : t1 ≤ t2 := by
  by_contra hlt
  have := encW_lexLeB_false timeWidth t2 t1 (by omega) h1
  rw [this] at h
  exact Bool.noConfusion h

/-! ### Helper lemmas: text order is total and transitive -/

theorem lexLeB_cons_cons (a b : Char) (as bs : List Char) :
    lexLeB (a :: as) (b :: bs) =
      if a.toNat < b.toNat then true
      else if b.toNat < a.toNat then false
      else lexLeB as bs := rfl

theorem lexLeB_total (a b : List Char) : lexLeB a b = true ∨ lexLeB b a = true := by
  induction a generalizing b with
  | nil => left; rfl
  | cons x xs ih =>
    cases b with
    | nil => right; rfl
    | cons y ys =>
      rw [lexLeB_cons_cons, lexLeB_cons_cons]
      rcases Nat.lt_trichotomy x.toNat y.toNat with h | h | h
      · left; rw [if_pos h]
      · rw [if_neg (by omega), if_neg (by omega), if_neg (by omega), if_neg (by omega)]
        exact ih ys
      · right; rw [if_pos h]

theorem lexLeB_trans (a b c : List Char) (hab : lexLeB a b = true)
    (hbc : lexLeB b c = true) : lexLeB a c = true := by
  induction a generalizing b c with
  | nil => rfl
  | cons x xs ih =>
    cases b with
    | nil => exact Bool.noConfusion hab
    | cons y ys =>
      cases c with
      | nil => exact Bool.noConfusion hbc
      | cons z zs =>
        rw [lexLeB_cons_cons] at hab hbc ⊢
        rcases Nat.lt_trichotomy x.toNat z.toNat with h | h | h
        · rw [if_pos h]
        · rw [if_neg (by omega), if_neg (by omega)]
          rcases Nat.lt_trichotomy x.toNat y.toNat with hxy | hxy | hxy
          · rcases Nat.lt_trichotomy y.toNat z.toNat with hyz | hyz | hyz
            · omega
            · omega
            · rw [if_neg (by omega), if_pos (by omega)] at hbc
              exact Bool.noConfusion hbc
          · rw [if_neg (by omega), if_neg (by omega)] at hab
            rw [if_neg (by omega), if_neg (by omega)] at hbc
            exact ih ys zs hab hbc
          · rw [if_neg (by omega), if_pos (by omega)] at hab
            exact Bool.noConfusion hab
        · exfalso
          rcases Nat.lt_trichotomy x.toNat y.toNat with hxy | hxy | hxy
          · rcases Nat.lt_trichotomy y.toNat z.toNat with hyz | hyz | hyz
            · omega
            · omega
            · rw [if_neg (by omega), if_pos (by omega)] at hbc
              exact Bool.noConfusion hbc
          · rw [if_neg (by omega), if_pos (by omega)] at hbc
            exact Bool.noConfusion hbc
          · rw [if_neg (by omega), if_pos (by omega)] at hab
            exact Bool.noConfusion hab

instance : IsTotal FavoriteRow searchOrd where
  total a b := by
    unfold searchOrd
    rcases Int.lt_trichotomy a.use_count b.use_count with h | h | h
    · right; left; exact h
    · rcases lexLeB_total a.created_at.data b.created_at.data with hl | hl
      · right; right; exact ⟨h.symm, hl⟩
      · left; right; exact ⟨h, hl⟩
    · left; left; exact h

instance : IsTrans FavoriteRow searchOrd where
  trans a b c hab hbc := by
    unfold searchOrd at hab hbc ⊢
    rcases hab with h1 | ⟨h1, hl1⟩
    · rcases hbc with h2 | ⟨h2, _⟩
      · left; omega
      · left; omega
    · rcases hbc with h2 | ⟨h2, hl2⟩
      · left; omega
      · right; exact ⟨h1.trans h2, lexLeB_trans _ _ _ hl2 hl1⟩

/-! ### Helper lemmas: LIKE patterns vs substring matching -/

/-- Does `hay` start with `needle`? -/
def startsWithB : List Char → List Char → Bool
  | [], _ => true
  | _ :: _, [] => false
  | n :: ns, h :: hs => n == h && startsWithB ns hs

/-- Is `needle` a contiguous substring of `hay`?  (The spec-side matching
notion: used to state what `search` is claimed to return.) -/
def substrB (needle : List Char) : List Char → Bool
  | [] => startsWithB needle []
  | c :: t => startsWithB needle (c :: t) || substrB needle t

theorem likeMatch_nil (s : List Char) : likeMatch [] s = s.isEmpty := rfl

theorem likeMatch_pct (ps s : List Char) :
    likeMatch ('%' :: ps) s = s.tails.any (fun t => likeMatch ps t) := by
  simp [likeMatch]

theorem likeMatch_lit_cons (p : Char) (hp : p ≠ '%') (ps s : List Char) :
    likeMatch (p :: ps) s =
      (match s with
        | [] => false
        | c :: s2 => (p = '_' ∨ p = c) && likeMatch ps s2) := by
  simp [likeMatch, hp]

theorem likeMatch_single_pct (s : List Char) : likeMatch ['%'] s = true := by
  induction s with
  | nil => rfl
  | cons c t ih =>
    rw [likeMatch_pct] at ih ⊢
    rw [List.tails_cons, List.any_cons, ih]
    simp

/-- Substring matching is LIKE-with-`%`-wrapping's "any suffix starts with
the needle". -/
theorem substrB_tails (q : List Char) (s : List Char) :
    substrB q s = s.tails.any (startsWithB q) := by
  induction s with
  | nil => simp [substrB]
  | cons c t ih => simp [substrB, List.tails_cons, List.any_cons, ih]

theorem likeMatch_lit (q : List Char) (hq : ∀ c ∈ q, c ≠ '%' ∧ c ≠ '_') (s : List Char) :
    likeMatch (q ++ ['%']) s = startsWithB q s := by
  induction q generalizing s with
  | nil => simp [likeMatch_single_pct, startsWithB]
  | cons p q' ih =>
    have hp := hq p (List.mem_cons_self p q')
    have hq' : ∀ c ∈ q', c ≠ '%' ∧ c ≠ '_' := fun c hc => hq c (List.mem_cons_of_mem p hc)
    rw [List.cons_append, likeMatch_lit_cons p hp.1]
    cases s with
    | nil => rfl
    | cons c s2 =>
      show ((p = '_' ∨ p = c) && likeMatch (q' ++ ['%']) s2) = startsWithB (p :: q') (c :: s2)
      rw [ih hq' s2]
      show ((p = '_' ∨ p = c) && startsWithB q' s2) = ((p == c) && startsWithB q' s2)
      by_cases hpc : p = c <;> simp [hp.2, hpc]

theorem likeMatch_substr (q : List Char) (hq : ∀ c ∈ q, c ≠ '%' ∧ c ≠ '_') (s : List Char) :
    likeMatch ('%' :: (q ++ ['%'])) s = substrB q s := by
  rw [likeMatch_pct, substrB_tails]
  simp only [likeMatch_lit q hq]

/-! ### Helper lemmas: store plumbing -/

/-- `WHERE id = ?` row lookup commutes with any per-row transform that
preserves `id` (as the SET clauses of UPDATE statements do). -/
theorem find?_map_id_pres (l : List FavoriteRow) (g : FavoriteRow → FavoriteRow)
    (i : Int) (hg : ∀ r, (g r).id = r.id) :
    (l.map g).find? (fun r => r.id == i) = (l.find? (fun r => r.id == i)).map g := by
  induction l with
  | nil => rfl
  | cons a l ih =>
    rw [List.map_cons, List.find?_cons, List.find?_cons, hg a]
    cases h : (a.id == i) with
    | true => rfl
    | false => exact ih

/-- ASCII lowercasing never produces a LIKE wildcard, so a wildcard-free
query stays wildcard-free after `to_lowercase`. -/
theorem asciiLower_no_wildcard (q : String) (hq : ∀ c ∈ q.data, c ≠ '%' ∧ c ≠ '_') :
    ∀ c ∈ (asciiLower q).data, c ≠ '%' ∧ c ≠ '_' := by
  intro c hc
  simp only [asciiLower, List.mem_map] at hc
  obtain ⟨c0, hc0, rfl⟩ := hc
  have h0 := hq c0 hc0
  unfold asciiLowerChar
  split
  · next h =>
    have hval : (c0.toNat + 32).isValidChar := Or.inl (by omega)
    have htn : (Char.ofNat (c0.toNat + 32)).toNat = c0.toNat + 32 := by
      rw [Char.ofNat, dif_pos hval]
      rfl
    constructor
    · intro hcontra
      have : (Char.ofNat (c0.toNat + 32)).toNat = 37 := by rw [hcontra]; rfl
      omega
    · intro hcontra
      have : (Char.ofNat (c0.toNat + 32)).toNat = 95 := by rw [hcontra]; rfl
      omega
  · exact h0

/-- The matching predicate the spec describes for `search`: the lowercased
query is a contiguous substring of the lowercased filename, stored tags
text, stored custom-tags text, or description (absent description never
matches). -/
def specSubstringMatch (q : String) (row : FavoriteRow) : Bool :=
  substrB (asciiLower q).data (asciiLower row.filename).data ||
  substrB (asciiLower q).data (asciiLower row.tags).data ||
  substrB (asciiLower q).data (asciiLower row.custom_tags).data ||
  (match row.description with
    | none => false
    | some d => substrB (asciiLower q).data (asciiLower d).data)

/-- For a wildcard-free query the WHERE clause of `search` is exactly the
spec's substring matching. -/
theorem rowLikeMatch_eq_spec (q : String) (hq : ∀ c ∈ q.data, c ≠ '%' ∧ c ≠ '_')
    (row : FavoriteRow) :
    rowLikeMatch ('%' :: ((asciiLower q).data ++ ['%'])) row = specSubstringMatch q row := by
  have hql := asciiLower_no_wildcard q hq
  unfold rowLikeMatch specSubstringMatch
  rw [likeMatch_substr _ hql, likeMatch_substr _ hql, likeMatch_substr _ hql]
  cases row.description <;> simp [likeMatch_substr _ hql]

/-- States whose stored `created_at` texts are well-formed timestamp
encodings (true of every row the API itself writes). -/
def DbState.TimesWF (st : DbState) : Prop :=
  ∀ r ∈ st.rows, ∃ t, t < timeBound ∧ r.created_at = toRfc3339 t

/-- Decoding the row that `create` writes for `f` recovers `f`, with the
assigned id. -/
theorem rowToFavorite_toRow (f : Favorite) (i : Int) (now : Nat)
    (hc : f.created_at < timeBound) (hl : ∀ t, f.last_used = some t → t < timeBound) :
    rowToFavorite now (f.toRow i) = { f with id := some i } := by
  unfold rowToFavorite Favorite.toRow
  have hsrc : (f.source.map Source.str).bind (fun s => (Source.parse s).toOption) = f.source := by
    cases f.source with
    | none => rfl
    | some s => simp [source_parse_str, Except.toOption]
  have hlast : (f.last_used.map toRfc3339).bind parseRfc3339 = f.last_used := by
    cases hfl : f.last_used with
    | none => rfl
    | some t => simp [time_roundtrip (hl t hfl)]
  have hmt : (Except.ok f.media_type : Except String MediaType).toOption.getD .gif
      = f.media_type := rfl
  simp [mediaType_parse_str, json_roundtrip, time_roundtrip hc, hsrc, hlast, hmt]

/-- A favorite whose fields fit the data model's value ranges: non-empty
display name and timestamps within the text codec's capacity. -/
def Favorite.Valid (f : Favorite) : Prop :=
  f.filename ≠ "" ∧ f.created_at < timeBound ∧ ∀ t, f.last_used = some t → t < timeBound

/-- C1: for every valid Favorite, `create` then `get_by_id` on the returned
id yields `some g` where `g` equals `f` on every field except `id`, which
becomes present and positive. -/
theorem create_then_getById (f : Favorite) (st : DbState) (now' : Nat)
    (hwf : st.WF) (hv : f.Valid) :
    0 < (FavoritesDb.create f st).1 ∧
      FavoritesDb.getById (FavoritesDb.create f st).1 (FavoritesDb.create f st).2 now' =
        some { f with id := some (FavoritesDb.create f st).1 } := by
  obtain ⟨hpos, _, _⟩ := hwf
  obtain ⟨_, hc, hl⟩ := hv
  refine ⟨hpos, ?_⟩
  show FavoritesDb.getById st.nextId ⟨f.toRow st.nextId :: st.rows, st.nextId + 1⟩ now' = _
  unfold FavoritesDb.getById
  rw [List.find?_cons]
  have hid : ((f.toRow st.nextId).id == st.nextId) = true := by
    simp [Favorite.toRow]
  rw [hid]
  have hcr : (FavoritesDb.create f st).1 = st.nextId := rfl
  rw [hcr]
  simp only [Option.map_some']
  rw [rowToFavorite_toRow f st.nextId now' hc hl]

/-- A concrete favorite used to witness the store theorems. -/
def favEx : Favorite :=
  { Favorite.new "cat.gif" (some "/m/gifs/cat.gif") .gif 5 with
    tags := ["cat", "funny"]
    gif_url := some "https://g/cat.gif"
    source := some .giphy
    last_used := some 4 }

/-- C1 witness: the round-trip at a concrete favorite and the empty store. -/
theorem create_then_getById_witness :
    0 < (FavoritesDb.create favEx DbState.empty).1 ∧
      FavoritesDb.getById (FavoritesDb.create favEx DbState.empty).1
        (FavoritesDb.create favEx DbState.empty).2 7 =
        some { favEx with id := some (FavoritesDb.create favEx DbState.empty).1 } :=
  create_then_getById favEx DbState.empty 7
    ⟨by decide, by simp [DbState.empty], by simp [DbState.empty]⟩
    ⟨by decide, by decide, fun t ht => by
      have : t = 4 := by
        have h4 : favEx.last_used = some 4 := rfl
        rw [h4] at ht
        exact ((Option.some.injEq 4 t).mp ht).symm
      rw [this]
      decide⟩

/-- C10: `increment_use_count` on an id with no stored row succeeds silently
— it returns `Ok(())` and leaves the store unchanged. -/
theorem incrementUseCount_missing_id (i : Int) (now : Nat) (st : DbState)
    (h : ∀ r ∈ st.rows, r.id ≠ i) :
    FavoritesDb.incrementUseCount i now st = .ok st := by
  unfold FavoritesDb.incrementUseCount incrementPure
  have hmap : ∀ (l : List FavoriteRow), (∀ r ∈ l, r.id ≠ i) →
      l.map (fun r =>
        if r.id = i then
          { r with use_count := r.use_count + 1, last_used := some (toRfc3339 now) }
        else r) = l := by
    intro l
    induction l with
    | nil => intro _; rfl
    | cons a l ih =>
      intro hl
      rw [List.map_cons, if_neg (hl a (List.mem_cons_self a l)),
        ih (fun r hr => hl r (List.mem_cons_of_mem a hr))]
  rw [hmap st.rows h]

/-- The store state holding exactly the favorite written by `create favEx`. -/
def stEx1 : DbState := (FavoritesDb.create favEx DbState.empty).2

/-- C10 witness: incrementing a missing id on a concrete one-row store is
`Ok` and a no-op. -/
theorem incrementUseCount_missing_id_witness :
    FavoritesDb.incrementUseCount 99 3 stEx1 = .ok stEx1 :=
  incrementUseCount_missing_id 99 3 stEx1 (by decide)

/-- The spec's referenceability invariant on the `Favorite` model (which, in
the source under verification, has no `mp4_filepath` field): some local path
or the remote URL must be present. -/
def Favorite.HasRef (f : Favorite) : Prop :=
  f.filepath ≠ none ∨ f.gif_url ≠ none

/-- C3 counterexample: `Favorite::new` with no filepath yields a record with
no filepath and no gif_url, and `create` stores it unchanged — the invariant
is neither established by the constructors nor enforced by the store. -/
theorem noRef_constructed_and_stored :
    (Favorite.new "a.gif" none .gif 0).filepath = none ∧
    (Favorite.new "a.gif" none .gif 0).gif_url = none ∧
    FavoritesDb.getById (FavoritesDb.create (Favorite.new "a.gif" none .gif 0) DbState.empty).1
        (FavoritesDb.create (Favorite.new "a.gif" none .gif 0) DbState.empty).2 0 =
      some { Favorite.new "a.gif" none .gif 0 with id := some 1 } := by
  refine ⟨rfl, rfl, ?_⟩
  decide

/-- C3 amended: the store preserves the referenceability invariant — a
favorite that has a filepath or a gif_url round-trips through
`create`/`get_by_id` still satisfying it — but does not establish it. -/
theorem create_preserves_hasRef (f : Favorite) (st : DbState) (now' : Nat)
    (h : f.HasRef) :
    ∃ g, FavoritesDb.getById (FavoritesDb.create f st).1 (FavoritesDb.create f st).2 now'
        = some g ∧ g.HasRef := by
  refine ⟨rowToFavorite now' (f.toRow st.nextId), ?_, ?_⟩
  · show FavoritesDb.getById st.nextId ⟨f.toRow st.nextId :: st.rows, st.nextId + 1⟩ now' = _
    unfold FavoritesDb.getById
    rw [List.find?_cons]
    have hid : ((f.toRow st.nextId).id == st.nextId) = true := by simp [Favorite.toRow]
    rw [hid]
    rfl
  · exact h

/-- C3 amended witness: a favorite carrying a gif_url keeps its reference
through a concrete create/get round-trip. -/
theorem create_preserves_hasRef_witness :
    ∃ g, FavoritesDb.getById (FavoritesDb.create favEx DbState.empty).1
        (FavoritesDb.create favEx DbState.empty).2 0 = some g ∧ g.HasRef :=
  create_preserves_hasRef favEx DbState.empty 0 (Or.inr (by decide))

/-- C4: a successful `download` leaves the destination on disk; repeating
the call returns the same path with the state unchanged (in particular the
request counter does not move — no network I/O), and in general any call
whose destination already exists returns it immediately without a request. -/
theorem download_idempotent (net : String → Option String)
    (mediaDir url filename media_type : String) (st : DlState) (p : String) (st₁ : DlState)
    (h : Downloader.download net mediaDir url filename media_type st = .ok (p, st₁)) :
    p ∈ st₁.fs ∧
    Downloader.download net mediaDir url filename media_type st₁ = .ok (p, st₁) ∧
    (∀ st' : DlState, (mediaDir ++ "/" ++ subdirFor media_type ++ "/" ++ filename) ∈ st'.fs →
      Downloader.download net mediaDir url filename media_type st' =
        .ok (mediaDir ++ "/" ++ subdirFor media_type ++ "/" ++ filename, st')) := by
  unfold Downloader.download at h
  have hmem : p ∈ st₁.fs ∧ p = mediaDir ++ "/" ++ subdirFor media_type ++ "/" ++ filename := by
    by_cases hex : mediaDir ++ "/" ++ subdirFor media_type ++ "/" ++ filename ∈ st.fs
    · rw [if_pos hex] at h
      obtain ⟨rfl, rfl⟩ : mediaDir ++ "/" ++ subdirFor media_type ++ "/" ++ filename = p
          ∧ st = st₁ := by
        constructor <;> [exact congrArg Prod.fst (Except.ok.inj h);
          exact congrArg Prod.snd (Except.ok.inj h)]
      exact ⟨hex, rfl⟩
    · rw [if_neg hex] at h
      cases hnet : net url with
      | none => rw [hnet] at h; exact Except.noConfusion h
      | some body =>
        rw [hnet] at h
        obtain ⟨rfl, rfl⟩ : mediaDir ++ "/" ++ subdirFor media_type ++ "/" ++ filename = p
            ∧ (⟨(mediaDir ++ "/" ++ subdirFor media_type ++ "/" ++ filename) :: st.fs,
                st.netCount + 1⟩ : DlState) = st₁ := by
          constructor <;> [exact congrArg Prod.fst (Except.ok.inj h);
            exact congrArg Prod.snd (Except.ok.inj h)]
        exact ⟨List.mem_cons_self _ _, rfl⟩
  obtain ⟨hpmem, rfl⟩ := hmem
  refine ⟨hpmem, ?_, ?_⟩
  · unfold Downloader.download
    rw [if_pos hpmem]
  · intro st' hst'
    unfold Downloader.download
    rw [if_pos hst']

/-- C4 witness: a concrete successful download, repeated. -/
theorem download_idempotent_witness :
    "/m/gifs/f.gif" ∈ (⟨["/m/gifs/f.gif"], 1⟩ : DlState).fs ∧
    Downloader.download (fun _ => some "bytes") "/m" "http://u" "f.gif" "gif"
        ⟨["/m/gifs/f.gif"], 1⟩ = .ok ("/m/gifs/f.gif", ⟨["/m/gifs/f.gif"], 1⟩) ∧
    (∀ st' : DlState, ("/m" ++ "/" ++ subdirFor "gif" ++ "/" ++ "f.gif") ∈ st'.fs →
      Downloader.download (fun _ => some "bytes") "/m" "http://u" "f.gif" "gif" st' =
        .ok ("/m" ++ "/" ++ subdirFor "gif" ++ "/" ++ "f.gif", st')) := by
  have h := download_idempotent (fun _ => some "bytes") "/m" "http://u" "f.gif" "gif"
    ⟨[], 0⟩ "/m/gifs/f.gif" ⟨["/m/gifs/f.gif"], 1⟩ rfl
  exact h

/-! ### Migration lemmas (C5) -/

theorem find?_isSome_append {α : Type} (l1 l2 : List α) (p : α → Bool)
    (h : (l1.find? p).isSome) : ((l1 ++ l2).find? p).isSome := by
  induction l1 with
  | nil => simp [List.find?] at h
  | cons a l ih =>
    rw [List.cons_append, List.find?_cons]
    rw [List.find?_cons] at h
    cases hpa : p a with
    | true => rfl
    | false =>
      rw [hpa] at h
      exact ih h

theorem find?_isSome_append_self {α : Type} (l : List α) (x : α) (p : α → Bool)
    (h : p x = true) : ((l ++ [x]).find? p).isSome := by
  induction l with
  | nil => simp [List.find?_cons, h]
  | cons a l ih =>
    rw [List.cons_append, List.find?_cons]
    cases hpa : p a with
    | true => rfl
    | false => exact ih

theorem applyMigration_of_present (st : MigDb) (m : Int × String × String)
    (h : (st.migLog.find? (fun p => p.1 == m.1)).isSome) : applyMigration st m = st := by
  unfold applyMigration
  rw [if_pos h]

theorem applyMigration_self (st : MigDb) (m : Int × String × String) :
    (((applyMigration st m).migLog).find? (fun p => p.1 == m.1)).isSome := by
  unfold applyMigration
  split
  · next h => exact h
  · exact find?_isSome_append_self _ _ _ (by simp)

theorem applyMigration_preserves (st : MigDb) (m' : Int × String × String) (v : Int)
    (h : (st.migLog.find? (fun p => p.1 == v)).isSome) :
    (((applyMigration st m').migLog).find? (fun p => p.1 == v)).isSome := by
  unfold applyMigration
  split
  · exact h
  · exact find?_isSome_append _ _ _ h

/-- C5: re-running the migration sequence is a no-op — the second run
applies no schema statement and errors on nothing — and a fresh run applies
each statement exactly once, in ascending version order, recording each in
the migration-log table. -/
theorem runMigrations_idempotent :
    (∀ st : MigDb, runMigrations (runMigrations st) = runMigrations st) ∧
    (runMigrations MigDb.fresh).schemaLog = [mig001sql, mig002sql, mig003sql] ∧
    (runMigrations MigDb.fresh).migLog =
      [(1, "001_initial"), (2, "002_add_gif_url"), (3, "003_add_clipboard_mode")] := by
  have hrun : ∀ st : MigDb, runMigrations st =
      applyMigration (applyMigration (applyMigration st
        (1, "001_initial", mig001sql)) (2, "002_add_gif_url", mig002sql))
        (3, "003_add_clipboard_mode", mig003sql) := fun st => rfl
  refine ⟨?_, rfl, rfl⟩
  intro st
  set m1 : Int × String × String := (1, "001_initial", mig001sql) with hm1
  set m2 : Int × String × String := (2, "002_add_gif_url", mig002sql) with hm2
  set m3 : Int × String × String := (3, "003_add_clipboard_mode", mig003sql) with hm3
  set S := runMigrations st with hS
  have h1 : ((S.migLog).find? (fun p => p.1 == m1.1)).isSome := by
    rw [hS, hrun st]
    exact applyMigration_preserves _ _ _ (applyMigration_preserves _ _ _
      (applyMigration_self _ _))
  have h2 : ((S.migLog).find? (fun p => p.1 == m2.1)).isSome := by
    rw [hS, hrun st]
    exact applyMigration_preserves _ _ _ (applyMigration_self _ _)
  have h3 : ((S.migLog).find? (fun p => p.1 == m3.1)).isSome := by
    rw [hS, hrun st]
    exact applyMigration_self _ _
  rw [hrun S, applyMigration_of_present S m1 h1, applyMigration_of_present S m2 h2,
    applyMigration_of_present S m3 h3]

/-- Decoding a row after the UPDATE SET clause recovers `f`'s mutable
fields, the stored row's id, and the stored row's `created_at`. -/
theorem rowToFavorite_updateRow (f : Favorite) (r : FavoriteRow) (now : Nat)
    (hl : ∀ t, f.last_used = some t → t < timeBound) :
    rowToFavorite now (updateRow f r) =
      { f with id := some r.id, created_at := (parseRfc3339 r.created_at).getD now } := by
  unfold rowToFavorite updateRow
  have hsrc : (f.source.map Source.str).bind (fun s => (Source.parse s).toOption) = f.source := by
    cases f.source with
    | none => rfl
    | some s => simp [source_parse_str, Except.toOption]
  have hlast : (f.last_used.map toRfc3339).bind parseRfc3339 = f.last_used := by
    cases hfl : f.last_used with
    | none => rfl
    | some t => simp [time_roundtrip (hl t hfl)]
  have hmt : (Except.ok f.media_type : Except String MediaType).toOption.getD .gif
      = f.media_type := rfl
  simp [mediaType_parse_str, json_roundtrip, hsrc, hlast, hmt]

/-- C7: `update` fails with the "missing identity" error exactly when the
favorite has no id; with an id present it succeeds, replacing every mutable
column of the row with that id from `f` while leaving the stored
`created_at` (and the id) untouched. -/
theorem update_requires_id (f : Favorite) (st : DbState) (now : Nat)
    (hl : ∀ t, f.last_used = some t → t < timeBound) :
    (f.id = none → FavoritesDb.update f st = .error "Favorite must have an ID to update") ∧
    (∀ i, f.id = some i →
      ∃ st', FavoritesDb.update f st = .ok st' ∧ st'.nextId = st.nextId ∧
        ∀ r, st.rows.find? (fun x => x.id == i) = some r →
          FavoritesDb.getById i st' now =
            some { f with id := some i,
                          created_at := (parseRfc3339 r.created_at).getD now }) := by
  constructor
  · intro h
    unfold FavoritesDb.update
    rw [h]
  · intro i hi
    refine ⟨⟨st.rows.map (fun r => if r.id = i then updateRow f r else r), st.nextId⟩,
      ?_, rfl, ?_⟩
    · unfold FavoritesDb.update
      rw [hi]
    · intro r hr
      unfold FavoritesDb.getById
      rw [find?_map_id_pres st.rows _ i
        (fun x => by by_cases hx : x.id = i <;> simp [updateRow, hx]), hr]
      have hri : r.id = i := by
        have := List.find?_some hr
        simpa using this
      rw [Option.map_some']
      rw [if_pos hri]
      rw [Option.map_some']
      rw [rowToFavorite_updateRow f r now hl, hri]

/-- The favorite as the GUI would send it back for an update: id present,
user-edited custom tags and description. -/
def favUpd : Favorite :=
  { favEx with
    id := some 1
    custom_tags := ["awesome"]
    description := some "A test GIF"
    last_used := none }

/-- C7 witness: updating the stored favorite with id 1 in the concrete
one-row store succeeds and replaces the mutable fields. -/
theorem update_requires_id_witness :
    ∃ st', FavoritesDb.update favUpd stEx1 = .ok st' ∧ st'.nextId = stEx1.nextId ∧
      ∀ r, stEx1.rows.find? (fun x => x.id == 1) = some r →
        FavoritesDb.getById 1 st' 9 =
          some { favUpd with id := some 1,
                             created_at := (parseRfc3339 r.created_at).getD 9 } :=
  (update_requires_id favUpd stEx1 9 (fun _ ht => by simp [favUpd] at ht)).2 1 rfl

/-- C9: decoding a stored row is total — malformed tag JSON decodes to `[]`,
an unknown media type to `Gif`, an unknown source to `None`, unparseable
`created_at` to the current time, unparseable `last_used` to `None` — so
`get_by_id` yields a favorite for every present row and `get_all` decodes
every row of any state, however malformed. -/
theorem rowDecode_total_defaults :
    (∀ (row : FavoriteRow) (now : Nat), parseStringList row.tags = none →
      (rowToFavorite now row).tags = []) ∧
    (∀ (row : FavoriteRow) (now : Nat), parseStringList row.custom_tags = none →
      (rowToFavorite now row).custom_tags = []) ∧
    (∀ (row : FavoriteRow) (now : Nat) (e : String), MediaType.parse row.media_type = .error e →
      (rowToFavorite now row).media_type = .gif) ∧
    (∀ (row : FavoriteRow) (now : Nat) (s e : String), row.source = some s →
      Source.parse s = .error e → (rowToFavorite now row).source = none) ∧
    (∀ (row : FavoriteRow) (now : Nat), parseRfc3339 row.created_at = none →
      (rowToFavorite now row).created_at = now) ∧
    (∀ (row : FavoriteRow) (now : Nat) (s : String), row.last_used = some s →
      parseRfc3339 s = none → (rowToFavorite now row).last_used = none) ∧
    (∀ (st : DbState) (now : Nat), (FavoritesDb.getAll st now).length = st.rows.length) ∧
    (∀ (i : Int) (st : DbState) (now : Nat) (r : FavoriteRow),
      st.rows.find? (fun x => x.id == i) = some r →
      FavoritesDb.getById i st now = some (rowToFavorite now r)) := by
  refine ⟨?_, ?_, ?_, ?_, ?_, ?_, ?_, ?_⟩
  · intro row now h
    unfold rowToFavorite
    simp [h]
  · intro row now h
    unfold rowToFavorite
    simp [h]
  · intro row now e h
    unfold rowToFavorite
    simp [h, Except.toOption]
  · intro row now s e hs h
    unfold rowToFavorite
    simp [hs, h, Except.toOption]
  · intro row now h
    unfold rowToFavorite
    simp [h]
  · intro row now s hs h
    unfold rowToFavorite
    simp [hs, h]
  · intro st now
    unfold FavoritesDb.getAll
    rw [List.length_map]
    exact (List.perm_insertionSort createdOrd st.rows).length_eq
  · intro i st now r h
    unfold FavoritesDb.getById
    rw [h, Option.map_some']

/-- A maximally malformed stored row: junk in every decoded column. -/
def badRow : FavoriteRow where
  id := 3
  filename := "x.gif"
  filepath := none
  gif_url := none
  media_type := "sticker"
  source := some "imgur"
  source_id := none
  source_url := none
  tags := "not json"
  custom_tags := "12,34"
  description := none
  width := none
  height := none
  file_size := none
  created_at := "yesterday"
  last_used := some "junk"
  use_count := 0

/-- C9 witness: the malformed row decodes with every documented default. -/
theorem rowDecode_total_defaults_witness :
    (rowToFavorite 7 badRow).tags = [] ∧
    (rowToFavorite 7 badRow).custom_tags = [] ∧
    (rowToFavorite 7 badRow).media_type = .gif ∧
    (rowToFavorite 7 badRow).source = none ∧
    (rowToFavorite 7 badRow).created_at = 7 ∧
    (rowToFavorite 7 badRow).last_used = none ∧
    (FavoritesDb.getAll ⟨[badRow], 4⟩ 7).length = 1 ∧
    FavoritesDb.getById 3 ⟨[badRow], 4⟩ 7 = some (rowToFavorite 7 badRow) :=
  ⟨rowDecode_total_defaults.1 badRow 7 (by decide),
   rowDecode_total_defaults.2.1 badRow 7 (by decide),
   rowDecode_total_defaults.2.2.1 badRow 7 "Unknown media type: sticker" rfl,
   rowDecode_total_defaults.2.2.2.1 badRow 7 "imgur" "Unknown source: imgur" rfl rfl,
   rowDecode_total_defaults.2.2.2.2.1 badRow 7 (by decide),
   rowDecode_total_defaults.2.2.2.2.2.1 badRow 7 "junk" rfl (by decide),
   rowDecode_total_defaults.2.2.2.2.2.2.1 ⟨[badRow], 4⟩ 7,
   rowDecode_total_defaults.2.2.2.2.2.2.2 3 ⟨[badRow], 4⟩ 7 badRow (by decide)⟩

/-! ### Increment lemmas (C8) -/

/-- A non-empty list's `getLast?` is always present. -/
theorem getLast?_cons_some {α : Type} : ∀ (u : α) (l : List α), ∃ v, (u :: l).getLast? = some v := by
  intro u l
  induction l generalizing u with
  | nil => exact ⟨u, rfl⟩
  | cons b l'' ih =>
    obtain ⟨v, hv⟩ := ih b
    exact ⟨v, by rw [List.getLast?_cons_cons, hv]⟩

/-- A fold that ignores its accumulator keeps the last stamp (or the initial
value when no call happens). -/
theorem foldl_stamp {β : Type} (f : Nat → β) :
    ∀ (l : List Nat) (init : β),
      l.foldl (fun _ t => f t) init = (l.getLast?.map f).getD init := by
  intro l
  induction l with
  | nil => intro init; rfl
  | cons t l' ih =>
    intro init
    rw [List.foldl_cons, ih (f t)]
    cases l' with
    | nil => rfl
    | cons u l'' =>
      obtain ⟨v, hv⟩ := getLast?_cons_some u l''
      rw [List.getLast?_cons_cons, hv]
      rfl

/-- `take (k+1)` ends at element `k`. -/
theorem getLast?_take_succ {α : Type} :
    ∀ (l : List α) (k : Nat) (hk : k < l.length),
      (l.take (k + 1)).getLast? = some (l.get ⟨k, hk⟩) := by
  intro l
  induction l with
  | nil => intro k hk; simp at hk
  | cons a l' ih =>
    intro k hk
    cases k with
    | zero => rfl
    | succ k =>
      cases l' with
      | nil => simp at hk
      | cons b l'' =>
        have hk' : k < (b :: l'').length := by
          simp only [List.length_cons] at hk ⊢; omega
        rw [List.take_succ_cons, List.take_succ_cons, List.getLast?_cons_cons]
        rw [← List.take_succ_cons]
        exact ih k hk'

/-- Each `increment_use_count` bumps the matching row's counter by one and
stamps its `last_used`; iterating over the instants `ts` adds `ts.length`
and leaves the last stamp. -/
theorem iterIncrement_find (i : Int) (ts : List Nat) (st : DbState) (r : FavoriteRow)
    (h : st.rows.find? (fun x => x.id == i) = some r) :
    (iterIncrement i ts st).rows.find? (fun x => x.id == i) =
      some { r with use_count := r.use_count + ts.length,
                    last_used := ts.foldl (fun _ t => some (toRfc3339 t)) r.last_used } := by
  induction ts generalizing st r with
  | nil =>
    unfold iterIncrement
    rw [List.foldl_nil, List.foldl_nil]
    simpa using h
  | cons t ts' ih =>
    have hstep : (incrementPure i t st).rows.find? (fun x => x.id == i) =
        some { r with use_count := r.use_count + 1, last_used := some (toRfc3339 t) } := by
      unfold incrementPure
      rw [find?_map_id_pres st.rows _ i
        (fun x => by by_cases hx : x.id = i <;> simp [hx]), h, Option.map_some']
      have hri : r.id = i := by
        have := List.find?_some h
        simpa using this
      rw [if_pos hri]
    have hiter : iterIncrement i (t :: ts') st = iterIncrement i ts' (incrementPure i t st) := rfl
    rw [hiter, ih (incrementPure i t st) _ hstep]
    have harith : r.use_count + 1 + (ts'.length : Int) = r.use_count + ((t :: ts').length : Int) := by
      rw [List.length_cons]
      push_cast
      ring
    rw [harith]
    rfl

/-- C8: starting from a stored row with `use_count = 0`, applying
`increment_use_count` sequentially at instants `ts` (N = |ts| ≥ 1 calls,
wall-clock non-decreasing, within the codec's range) yields a stored
`use_count` of exactly N and a non-null `last_used` equal to the last call's
instant; after the (k+1)-st call the counter reads k+1 and `last_used` holds
the (k+1)-st instant, parseable back to it, and the stamped instants are
non-decreasing across the calls.  Each call is a single UPDATE statement —
one atomic state transition in this model. -/
theorem incrementN_counts (i : Int) (ts : List Nat) (st : DbState) (r : FavoriteRow)
    (h : st.rows.find? (fun x => x.id == i) = some r)
    (h0 : r.use_count = 0) (hne : ts ≠ [])
    (hmono : ts.Pairwise (· ≤ ·)) (hbound : ∀ t ∈ ts, t < timeBound) :
    (∃ tN, ts.getLast? = some tN ∧
      (iterIncrement i ts st).rows.find? (fun x => x.id == i) =
        some { r with use_count := (ts.length : Int),
                      last_used := some (toRfc3339 tN) }) ∧
    (∀ k (hk : k < ts.length),
      (iterIncrement i (ts.take (k + 1)) st).rows.find? (fun x => x.id == i) =
        some { r with use_count := ((k + 1 : Nat) : Int),
                      last_used := some (toRfc3339 (ts.get ⟨k, hk⟩)) } ∧
      parseRfc3339 (toRfc3339 (ts.get ⟨k, hk⟩)) = some (ts.get ⟨k, hk⟩)) ∧
    (∀ k1 k2 (h1 : k1 < ts.length) (h2 : k2 < ts.length), k1 ≤ k2 →
      ts.get ⟨k1, h1⟩ ≤ ts.get ⟨k2, h2⟩) := by
  refine ⟨?_, ?_, ?_⟩
  · obtain ⟨tN, htN⟩ : ∃ tN, ts.getLast? = some tN := by
      cases ts with
      | nil => exact absurd rfl hne
      | cons a l => exact getLast?_cons_some a l
    refine ⟨tN, htN, ?_⟩
    rw [iterIncrement_find i ts st r h, foldl_stamp _ ts r.last_used, htN, h0]
    simp
  · intro k hk
    constructor
    · have htake : (ts.take (k + 1)).getLast? = some (ts.get ⟨k, hk⟩) :=
        getLast?_take_succ ts k hk
      rw [iterIncrement_find i (ts.take (k + 1)) st r h,
        foldl_stamp _ (ts.take (k + 1)) r.last_used, htake, h0]
      have hlen : (ts.take (k + 1)).length = k + 1 := by
        rw [List.length_take]
        omega
      rw [hlen]
      simp
    · exact time_roundtrip (hbound _ (ts.get_mem k hk))
  · intro k1 k2 h1 h2 hle
    rcases Nat.lt_or_ge k1 k2 with hlt | hge
    · exact List.pairwise_iff_get.mp hmono ⟨k1, h1⟩ ⟨k2, h2⟩ hlt
    · have : k1 = k2 := by omega
      subst this
      rfl

/-- C8 witness: two sequential increments at instants 5 then 6 on the
concrete one-row store leave `use_count = 2` and `last_used` stamped with
the second instant. -/
theorem incrementN_counts_witness :
    (iterIncrement 1 [5, 6] stEx1).rows.find? (fun x => x.id == 1) =
      some { favEx.toRow 1 with use_count := 2, last_used := some (toRfc3339 6) } := by
  obtain ⟨⟨tN, htN, hfind⟩, -, -⟩ :=
    incrementN_counts 1 [5, 6] stEx1 (favEx.toRow 1) (by decide) rfl (by decide) (by decide)
      (by decide)
  have hg : ([5, 6] : List Nat).getLast? = some 6 := rfl
  rw [hg] at htN
  have h6 : 6 = tN := (Option.some.injEq 6 tN).mp htN
  subst h6
  simpa using hfind

/-! ### Search theorems (C2, C6) -/

/-- The row stored for a favorite with filename `"ab"`, no tags, no
description — nothing containing a `_` or a `%`. -/
def cRow : FavoriteRow := (Favorite.new "ab" none .gif 0).toRow 1

/-- A one-row store around `cRow`. -/
def stC : DbState := ⟨[cRow], 2⟩

/-- C2 counterexample: the LIKE wildcard `_` in a query matches any single
character, so `search "_"` returns the stored record even though `"_"` is a
case-insensitive substring of none of its four fields — `search` is not
substring matching for queries containing LIKE metacharacters. -/
theorem search_wildcard_counterexample :
    FavoritesDb.search "_" stC 0 = [rowToFavorite 0 cRow] ∧
    specSubstringMatch "_" cRow = false := by
  constructor <;> decide

/-- C2 amended: for every query containing no LIKE wildcard (`%`, `_`) and
every store whose stored timestamps are well-formed, `search` returns
exactly the records one of whose four fields (filename, the stored tags
text, the stored custom-tags text, description) has the lowercased query as
a substring, ordered by use count descending and then by creation time
descending. -/
theorem search_substring_sorted (q : String) (st : DbState) (now : Nat)
    (hq : ∀ c ∈ q.data, c ≠ '%' ∧ c ≠ '_') (ht : st.TimesWF) :
    (∀ g, g ∈ FavoritesDb.search q st now ↔
      ∃ row, row ∈ st.rows ∧ specSubstringMatch q row = true ∧ g = rowToFavorite now row) ∧
    (FavoritesDb.search q st now).Pairwise (fun g1 g2 =>
      g2.use_count ≤ g1.use_count ∧
        (g1.use_count = g2.use_count → g2.created_at ≤ g1.created_at)) := by
  constructor
  · intro g
    unfold FavoritesDb.search
    simp only [List.mem_map, List.mem_insertionSort, List.mem_filter]
    constructor
    · rintro ⟨row, ⟨hmem, hmatch⟩, rfl⟩
      refine ⟨row, hmem, ?_, rfl⟩
      rw [← rowLikeMatch_eq_spec q hq row]
      exact hmatch
    · rintro ⟨row, hmem, hmatch, rfl⟩
      refine ⟨row, ⟨hmem, ?_⟩, rfl⟩
      rw [rowLikeMatch_eq_spec q hq row]
      exact hmatch
  · unfold FavoritesDb.search
    rw [List.pairwise_map]
    have hsorted : List.Pairwise searchOrd
        ((st.rows.filter
          (rowLikeMatch ('%' :: ((asciiLower q).data ++ ['%'])))).insertionSort searchOrd) :=
      List.sorted_insertionSort searchOrd _
    refine hsorted.imp_of_mem ?_
    intro a b ha hb hab
    have ha' : a ∈ st.rows := (List.mem_filter.mp ((List.mem_insertionSort searchOrd).mp ha)).1
    have hb' : b ∈ st.rows := (List.mem_filter.mp ((List.mem_insertionSort searchOrd).mp hb)).1
    obtain ⟨ta, hta, hea⟩ := ht a ha'
    obtain ⟨tb, htb, heb⟩ := ht b hb'
    have hua : (rowToFavorite now a).use_count = a.use_count := rfl
    have hub : (rowToFavorite now b).use_count = b.use_count := rfl
    have hca : (rowToFavorite now a).created_at = ta := by
      show (parseRfc3339 a.created_at).getD now = ta
      rw [hea, time_roundtrip hta]
      rfl
    have hcb : (rowToFavorite now b).created_at = tb := by
      show (parseRfc3339 b.created_at).getD now = tb
      rw [heb, time_roundtrip htb]
      rfl
    constructor
    · rw [hua, hub]
      rcases hab with h | ⟨h, _⟩
      · exact le_of_lt h
      · exact le_of_eq h.symm
    · intro heq
      rw [hua, hub] at heq
      rcases hab with h | ⟨_, hlex⟩
      · exfalso
        omega
      · rw [hca, hcb]
        rw [hea, heb] at hlex
        exact le_of_lexLeB_encW htb hta hlex

/-- C2 amended witness: the substring/order characterization at a concrete
query and the concrete one-row store. -/
theorem search_substring_sorted_witness :
    (∀ g, g ∈ FavoritesDb.search "cat" stEx1 0 ↔
      ∃ row, row ∈ stEx1.rows ∧ specSubstringMatch "cat" row = true ∧
        g = rowToFavorite 0 row) ∧
    (FavoritesDb.search "cat" stEx1 0).Pairwise (fun g1 g2 =>
      g2.use_count ≤ g1.use_count ∧
        (g1.use_count = g2.use_count → g2.created_at ≤ g1.created_at)) :=
  search_substring_sorted "cat" stEx1 0 (by decide)
    (fun r hr => by
      have hr' : r ∈ [favEx.toRow 1] := hr
      have hr2 : r = favEx.toRow 1 := by simpa using hr'
      subst hr2
      exact ⟨5, by decide, rfl⟩)

/-- C6 counterexample: an empty query builds the pattern `%%`, which LIKE-
matches every row, so `search ""` on a non-empty store returns every record
rather than an empty sequence. -/
theorem search_empty_query_counterexample :
    FavoritesDb.search "" stC 0 = [rowToFavorite 0 cRow] ∧
    FavoritesDb.search "" stC 0 ≠ [] := by
  constructor <;> decide

/-- `%%` LIKE-matches every row (every field comparison succeeds on its
whole-string suffix). -/
theorem rowLikeMatch_pct_pct (r : FavoriteRow) : rowLikeMatch ['%', '%'] r = true := by
  unfold rowLikeMatch
  have h : ∀ s : List Char, likeMatch ['%', '%'] s = true := by
    intro s
    rw [likeMatch_pct]
    cases s with
    | nil => rfl
    | cons c t =>
      rw [List.tails_cons, List.any_cons, likeMatch_single_pct]
      rfl
  rw [h, h]
  rfl

/-- C6 amended: a query matching no record returns the empty sequence (and
no error — `search` is total); the empty query, however, matches every
record: `search ""` returns one result per stored row. -/
theorem search_no_match_empty (q : String) (st : DbState) (now : Nat)
    (h : ∀ r ∈ st.rows,
      rowLikeMatch ('%' :: ((asciiLower q).data ++ ['%'])) r = false) :
    FavoritesDb.search q st now = [] ∧
    (∀ (st' : DbState) (now' : Nat),
      (FavoritesDb.search "" st' now').length = st'.rows.length) := by
  constructor
  · show List.map (rowToFavorite now)
        (List.insertionSort searchOrd
          (List.filter (rowLikeMatch ('%' :: ((asciiLower q).data ++ ['%']))) st.rows)) = []
    have hfil : st.rows.filter (rowLikeMatch ('%' :: ((asciiLower q).data ++ ['%']))) = [] := by
      rw [List.filter_eq_nil_iff]
      intro r hr
      rw [h r hr]
      exact Bool.false_ne_true
    rw [hfil]
    rfl
  · intro st' now'
    show (List.map (rowToFavorite now')
        (List.insertionSort searchOrd
          (List.filter (rowLikeMatch ('%' :: ((asciiLower "").data ++ ['%'])))
            st'.rows))).length = st'.rows.length
    rw [List.length_map]
    have hfil : st'.rows.filter (rowLikeMatch ('%' :: ((asciiLower "").data ++ ['%'])))
        = st'.rows := by
      rw [List.filter_eq_self]
      intro r _
      exact rowLikeMatch_pct_pct r
    rw [(List.perm_insertionSort searchOrd _).length_eq, hfil]

/-- C6 amended witness: a query matching nothing in the concrete store
returns the empty list. -/
theorem search_no_match_empty_witness :
    FavoritesDb.search "zz" stC 0 = [] ∧
    (∀ (st' : DbState) (now' : Nat),
      (FavoritesDb.search "" st' now').length = st'.rows.length) :=
  search_no_match_empty "zz" stC 0 (by decide)

end GifPicker
